import Mathlib

/-!
Verification of the `js-base-error` serializer (`src/index.ts`) against its
specification.

The development is a shallow embedding of the library's rendering core:

* JavaScript values are `JsVal`; objects live in an immutable `Heap` (rendering
  only reads the object graph, so the heap is a fixed parameter; the per-call
  `WeakSet` of visited objects is threaded explicitly as a list of addresses).
* Property access that may throw is modelled by `Getter.throws`; `try/catch`
  blocks of the source become explicit `Except Unit` handling.  Functions whose
  entire body sits under a `try` in the source are given total types.
* The JavaScript call stack is finite: deep recursion raises a catchable
  `RangeError`.  This is modelled by a `fuel` argument; exhausting it raises the
  same `Except Unit` error an ordinary exception raises, and enclosing
  `try/catch` blocks catch it, exactly as V8's catchable stack-overflow error.
  Fuel is consumed at method invocations (`toString()` / `toJSON()`) and at the
  recursive render calls.
* `ErrorLikeProto` tagging (`Object.getPrototypeOf(x) === ErrorLikeProto`) is
  the `Tag.errorLike` class tag; `BaseError` instances carry the address of
  their `detail`; `ErrorLikeCollection` carries its field-name prefix and its
  element addresses.
-/

/-- A JavaScript value: primitives, plus references into the object heap.
Numbers are modelled as integers (all claims concern integral or non-numeric
codes); `sym` is a Symbol with its description, `fn` a function with its
source text (its `toString()` result). -/
inductive JsVal where
  | undef
  | null
  | bool (b : Bool)
  | num (n : Int)
  | str (s : String)
  | sym (desc : String)
  | fn (src : String)
  | ref (a : Nat)
deriving Repr, DecidableEq

/-- A property slot: a data property holding a value, or an accessor whose
getter throws when read. -/
inductive Getter where
  | val (v : JsVal)
  | throws
deriving Repr, DecidableEq

/-- Behaviour of an own `toString` method overriding the prototype one:
it returns some value (any type) or throws. -/
inductive StrB where
  | ret (v : JsVal)
  | throws
deriving Repr, DecidableEq

/-- Behaviour of an own `toJSON` method: returns a value or throws. -/
inductive JsonB where
  | ret (v : JsVal)
  | throws
deriving Repr, DecidableEq

/-- The class of an object, determining `instanceof` dispatch and the
prototype `toString`/`toJSON` methods:
`plain` (ordinary object, also those carrying `ErrorLikeProto`-incompatible
protos), `errorLike` (direct prototype is exactly `ErrorLikeProto`),
`baseError detail` (a `BaseError` instance whose `detail` lives at address
`detail`), `collection pfx elems` (an `ErrorLikeCollection` with field-name
prefix `pfx` and element addresses `elems`), `nativeError` (a platform
`Error`). -/
inductive Tag where
  | plain
  | errorLike
  | baseError (detail : Nat)
  | collection (pfx : String) (elems : List Nat)
  | nativeError
deriving Repr, DecidableEq

/-- A heap object: own enumerable properties (`fields`, in insertion order =
`Object.keys` order), properties that exist (`'p' in obj`) without being own
enumerable (`hidden`: inherited or non-enumerable own), and optional own
`toString`/`toJSON` overrides. -/
structure Obj where
  tag : Tag
  fields : List (String × Getter)
  hidden : List (String × Getter)
  toStr : Option StrB
  toJson : Option JsonB
deriving Repr, DecidableEq

/-- The object heap: address `a` denotes `heap[a]`. -/
abbrev Heap := List Obj

/-- The default object used for dangling addresses (never reached on the
concrete heaps of the theorems below). -/
def Obj.default : Obj := ⟨Tag.plain, [], [], none, none⟩

def getObj (h : Heap) (a : Nat) : Obj := h.getD a Obj.default

/-- `Reflect.get(obj, name)`: own enumerable properties shadow the rest;
a throwing getter raises. Absent properties read as `undefined`. -/
def reflectGet (h : Heap) (a : Nat) (name : String) : Except Unit JsVal :=
  match ((getObj h a).fields ++ (getObj h a).hidden).find? (fun p => p.1 = name) with
  | none => Except.ok JsVal.undef
  | some (_, Getter.val v) => Except.ok v
  | some (_, Getter.throws) => Except.error ()

/-- `'name' in obj`: property existence anywhere (own or inherited,
enumerable or not). -/
def propIn (h : Heap) (a : Nat) (name : String) : Bool :=
  ((getObj h a).fields ++ (getObj h a).hidden).any (fun p => p.1 = name)

/-- The key set both renderers start from (source lines 285-288 / 544-547):
`new Set(Object.keys(detail))`, augmented with `"stack"` when `'stack' in
detail` holds without `stack` being own enumerable.  JavaScript object keys
are unique, so no deduplication is needed. -/
def keysInit (h : Heap) (a : Nat) : List String :=
  let ks := (getObj h a).fields.map (fun p => p.1)
  if ks.contains "stack" = false ∧ propIn h a "stack" then ks ++ ["stack"] else ks

/-- `typeof v === 'undefined' || v === null` is false. -/
def definedNonNull (v : JsVal) : Bool :=
  match v with
  | JsVal.undef => false
  | JsVal.null => false
  | _ => true

/-- `typeof v === 'object' && v !== null` (references only; `null` is handled
by the paired non-null check everywhere in the source). -/
def isObjRef (v : JsVal) : Bool :=
  match v with
  | JsVal.ref _ => true
  | _ => false

/-- `Number.isFinite(v)`; the model has no non-finite numbers. -/
def isFiniteNum (v : JsVal) : Bool :=
  match v with
  | JsVal.num _ => true
  | _ => false

/-- `Number.isSafeInteger(v)`: an integer of magnitude at most `2^53 - 1`. -/
def isSafeInt (v : JsVal) : Bool :=
  match v with
  | JsVal.num n => n.natAbs ≤ 9007199254740991
  | _ => false

/-- `v === ''`. -/
def isEmptyStrVal (v : JsVal) : Bool :=
  match v with
  | JsVal.str s => s = ""
  | _ => false

/-- `.toString()` of a primitive: throws on `undefined`/`null`, identity on
strings, canonical text otherwise. -/
def primToString (v : JsVal) : Except Unit String :=
  match v with
  | JsVal.undef => Except.error ()
  | JsVal.null => Except.error ()
  | JsVal.bool b => Except.ok (if b then "true" else "false")
  | JsVal.num n => Except.ok (toString n)
  | JsVal.str s => Except.ok s
  | JsVal.sym d => Except.ok ("Symbol(" ++ d ++ ")")
  | JsVal.fn s => Except.ok s
  | JsVal.ref _ => Except.error ()

/-- The per-call visited set (`WeakSet`), as a list of visited addresses. -/
abbrev Seen := List Nat

def seenHas (s : Seen) (a : Nat) : Bool := s.contains a

def seenAdd (s : Seen) (a : Nat) : Seen := a :: s

/-- A JSON-like tree: either a raw JavaScript value stored on the target
object, or a freshly built mapping / array. -/
inductive JsonLike where
  | val (v : JsVal)
  | obj (fields : List (String × JsonLike))
  | arr (items : List JsonLike)

/-- A JSON target object under construction (insertion-ordered key/value
pairs). -/
abbrev JTarget := List (String × JsonLike)

/-- `target[key] = v`: overwrite in place when the key exists, append
otherwise. -/
def setKey (t : JTarget) (k : String) (v : JsonLike) : JTarget :=
  if t.any (fun p => p.1 = k) then
    t.map (fun p => if p.1 = k then (k, v) else p)
  else
    t ++ [(k, v)]

def lookupKey (t : JTarget) (k : String) : Option JsonLike :=
  (t.find? (fun p => p.1 = k)).map (fun p => p.2)

/-- `typeof value === 'object' && value !== null` on a stored JSON-like value:
fresh mappings and arrays are objects, and so is a raw reference. -/
def jsonIsObject (j : JsonLike) : Bool :=
  match j with
  | JsonLike.obj _ => true
  | JsonLike.arr _ => true
  | JsonLike.val (JsVal.ref _) => true
  | JsonLike.val _ => false

/-!
## String rendering

Mirrors `safeAnyToString`, `safeGetStringOf`, `_errorDetailToList`,
`_nativeErrorToString`, `_errorToString` and `ErrorLikeCollection.toString`
of the source. `fuel` models the finite JavaScript call stack; running out
raises the catchable `RangeError` (`Except.error ()`), consumed by the same
`try/catch` blocks that swallow ordinary exceptions.
-/

mutual

/-- A `v.toString()` method invocation. Dispatches to an own override when
present, otherwise to the prototype method selected by the class tag.
Entering the call consumes one unit of fuel (one stack frame); fuel 0 is the
catchable stack-overflow error. -/
def invokeToString (h : Heap) (fuel : Nat) (v : JsVal) : Except Unit JsVal :=
  match fuel with
  | 0 => Except.error ()
  | f + 1 =>
    match v with
    | JsVal.ref a =>
      let o := getObj h a
      match o.toStr with
      | some (StrB.ret r) => Except.ok r
      | some StrB.throws => Except.error ()
      | none =>
        match o.tag with
        | Tag.plain => Except.ok (JsVal.str "[object Object]")
        | Tag.errorLike =>
          -- ErrorLikeProto.toString(): errorDetailToString(this), fresh WeakSet
          Except.ok (JsVal.str (String.intercalate "\n" (_errorDetailToList h f a []).1))
        | Tag.baseError d =>
          -- BaseError.toString(): this.detail.toString()
          invokeToString h f (JsVal.ref d)
        | Tag.collection pfx elems =>
          match collectionToString h f pfx elems 0 with
          | Except.error e => Except.error e
          | Except.ok l => Except.ok (JsVal.str (String.intercalate "\n" l))
        | Tag.nativeError =>
          -- Error.prototype.toString(): `name`, `": "`, `message`
          match reflectGet h a "name" with
          | Except.error e => Except.error e
          | Except.ok nv =>
            match (if nv = JsVal.undef then Except.ok "Error" else stringCoerce h f nv) with
            | Except.error e => Except.error e
            | Except.ok nameStr =>
              match reflectGet h a "message" with
              | Except.error e => Except.error e
              | Except.ok mv =>
                match (if mv = JsVal.undef then Except.ok "" else stringCoerce h f mv) with
                | Except.error e => Except.error e
                | Except.ok msgStr =>
                  Except.ok (JsVal.str
                    (if msgStr = "" then nameStr
                     else if nameStr = "" then msgStr
                     else nameStr ++ ": " ++ msgStr))
    | prim =>
      match primToString prim with
      | Except.error e => Except.error e
      | Except.ok s => Except.ok (JsVal.str s)
termination_by structural fuel

/-- `String(v)` coercion, used by `Error.prototype.toString` on the `name` and
`message` values: throws on symbols, canonical text on primitives, and the
`toString` method on objects (the `valueOf` fallback of the full ToPrimitive
algorithm is abstracted as a throw). -/
def stringCoerce (h : Heap) (fuel : Nat) (v : JsVal) : Except Unit String :=
  match fuel with
  | 0 => Except.error ()
  | f + 1 =>
    match v with
    | JsVal.undef => Except.ok "undefined"
    | JsVal.null => Except.ok "null"
    | JsVal.sym _ => Except.error ()
    | JsVal.ref _ =>
      match invokeToString h f v with
      | Except.ok (JsVal.str s) => Except.ok s
      | Except.ok _ => Except.error ()
      | Except.error e => Except.error e
    | prim => primToString prim
termination_by structural fuel

/-- Source `safeAnyToString`: `try { const str = anyValue.toString(); if
(typeof str === 'string' && str.length > 0) return str } catch; return null`.
The body is one `try`, so the function is total; a stack overflow inside it
(fuel 0) is caught like any other exception. -/
def safeAnyToString (h : Heap) (fuel : Nat) (v : JsVal) : Option String :=
  match fuel with
  | 0 => none
  | f + 1 =>
    match invokeToString h f v with
    | Except.ok (JsVal.str s) => if 0 < s.length then some s else none
    | Except.ok _ => none
    | Except.error _ => none
termination_by structural fuel

/-- Source `safeGetStringOf`: read a property, and unless it is `undefined`,
`null` or `''`, stringify it with `safeAnyToString`; any throw yields `null`. -/
def safeGetStringOf (h : Heap) (fuel : Nat) (a : Nat) (property : String) : Option String :=
  match fuel with
  | 0 => none
  | f + 1 =>
    match reflectGet h a property with
    | Except.error _ => none
    | Except.ok value =>
      if definedNonNull value && !isEmptyStrVal value then safeAnyToString h f value
      else none
termination_by structural fuel

/-- `ErrorLikeCollection.toString()` body: for each element, push
`"<pfx>.<i>:"` and the element's own `toString()` result (no `try/catch`
around the element call). A non-string result from a custom override is
outside the modelled scope and recorded as `""`. -/
def collectionToString (h : Heap) (fuel : Nat) (pfx : String) (elems : List Nat) (i : Nat) :
    Except Unit (List String) :=
  match fuel with
  | 0 => Except.error ()
  | f + 1 =>
    match elems with
    | [] => Except.ok []
    | e :: rest =>
      match invokeToString h f (JsVal.ref e) with
      | Except.error err => Except.error err
      | Except.ok r =>
        let s := match r with | JsVal.str s => s | _ => ""
        match collectionToString h f pfx rest (i + 1) with
        | Except.error err => Except.error err
        | Except.ok tail => Except.ok ((pfx ++ "." ++ toString i ++ ":") :: s :: tail)
termination_by structural fuel

/-- The remaining-fields loop of `_errorDetailToList` (source lines 326-340):
per field, inside a `try`: read the value, add object values to the visited
set unconditionally, stringify defined non-null values with
`safeAnyToString`, and emit a line only when that produced a string. -/
def remainingFields (h : Heap) (fuel : Nat) (a : Nat) (names : List String) (seen : Seen) :
    List String × Seen :=
  match fuel with
  | 0 => ([], seen)
  | f + 1 =>
    match names with
    | [] => ([], seen)
    | name :: rest =>
      let (line, seen1) :=
        match reflectGet h a name with
        | Except.error _ => ([], seen)
        | Except.ok raw =>
          let s1 := match raw with | JsVal.ref r => seenAdd seen r | _ => seen
          if definedNonNull raw then
            match safeAnyToString h f raw with
            | some value => ([name ++ ": " ++ value], s1)
            | none => ([], s1)
          else ([], s1)
      let (tail, seen2) := remainingFields h f a rest seen1
      (line ++ tail, seen2)
termination_by structural fuel

/-- Source `_errorDetailToList`: known fields `name`, `code`, `message`,
`level` in that order, then the remaining fields, then `stack:`, then
`cause:` (the cause recursing through `_errorToString` under the shared
visited set; the `seen.add` before the recursive call persists even when the
call throws). At fuel 0 the walk degrades to no lines. -/
def _errorDetailToList (h : Heap) (fuel : Nat) (a : Nat) (seen : Seen) : List String × Seen :=
  match fuel with
  | 0 => ([], seen)
  | f + 1 =>
    let keys := keysInit h a
    let l1 := if keys.contains "name" then
        (match safeGetStringOf h f a "name" with
         | some v => ["name: " ++ v]
         | none => []) else []
    let l2 := if keys.contains "code" then
        (match safeGetStringOf h f a "code" with
         | some v => ["code: " ++ v]
         | none => []) else []
    let l3 := if keys.contains "message" then
        (match safeGetStringOf h f a "message" with
         | some v => ["message: " ++ v]
         | none => []) else []
    let l4 := if keys.contains "level" then
        (match safeGetStringOf h f a "level" with
         | some v => ["level: " ++ v]
         | none => []) else []
    let keys1 := keys.filter (fun k =>
      !(k = "name" : Bool) && !(k = "code" : Bool) && !(k = "message" : Bool) && !(k = "level" : Bool))
    let stackLine := if keys1.contains "stack" then safeGetStringOf h f a "stack" else none
    let keys2 := keys1.filter (fun k => !(k = "stack" : Bool))
    let (causeLine, seen1) :=
      if keys2.contains "cause" then
        match reflectGet h a "cause" with
        | Except.error _ => (none, seen)
        | Except.ok raw =>
          match raw with
          | JsVal.ref r =>
            if seenHas seen r then (none, seen)
            else
              match _errorToString h f (JsVal.ref r) (seenAdd seen r) with
              | (Except.error _, s') => (none, s')
              | (Except.ok c, s') => (c, s')
          | JsVal.undef => (none, seen)
          | JsVal.null => (none, seen)
          | prim => (safeAnyToString h f prim, seen)
      else (none, seen)
    let keys3 := keys2.filter (fun k => !(k = "cause" : Bool))
    let (rest, seen2) := remainingFields h f a keys3 seen1
    let fields1 := l1 ++ l2 ++ l3 ++ l4 ++ rest
    let fields2 := fields1 ++ (match stackLine with | some s => ["stack:\n" ++ s] | none => [])
    let fields3 := fields2 ++
      (match causeLine with
       | some c => if c = "" then [] else ["cause:\n" ++ c]
       | none => [])
    (fields3, seen2)
termination_by structural fuel

/-- Source `_nativeErrorToString`: `error.toString()`, then one of
`stack`/`message`/`name` as a header block, then the recursively rendered
`cause` under the shared visited set (a `null` base message renders as
`"null"` through the template literal). -/
def _nativeErrorToString (h : Heap) (fuel : Nat) (a : Nat) (seen : Seen) : String × Seen :=
  match fuel with
  | 0 => ("", seen)
  | f + 1 =>
    let baseMessage := safeAnyToString h f (JsVal.ref a)
    let stackV := safeGetStringOf h f a "stack"
    let (stackOrMsg, prop) :=
      match stackV with
      | some s => (some s, some "stack")
      | none =>
        match safeGetStringOf h f a "name", safeGetStringOf h f a "message" with
        | some n, some m => (some (n ++ ": " ++ m), some "message")
        | none, some m => (some m, some "message")
        | some n, none => (some n, some "name")
        | none, none => ((none : Option String), (none : Option String))
    let (cause, seen1) :=
      match reflectGet h a "cause" with
      | Except.error _ => ((none : Option String), seen)
      | Except.ok raw =>
        match raw with
        | JsVal.ref r =>
          if seenHas seen r then (none, seen)
          else
            match _errorToString h f (JsVal.ref r) (seenAdd seen r) with
            | (Except.error _, s') => (none, s')
            | (Except.ok c, s') => (c, s')
        | JsVal.undef => (none, seen)
        | JsVal.null => (none, seen)
        | prim => (safeAnyToString h f prim, seen)
    let b := match baseMessage with | some s => s | none => "null"
    let mid := match prop, stackOrMsg with
      | some p, some sm => "\n" ++ p ++ ":\n" ++ sm
      | _, _ => ""
    let tl := match cause with
      | some c => if c = "" then "" else "\ncause:\n" ++ c
      | none => ""
    (b ++ mid ++ tl, seen1)
termination_by structural fuel

/-- Source `_errorToString`: dispatch on the value's class — `BaseError`
(render its `detail`), `ErrorLikeCollection` (its own `toString()`, with no
`try/catch` on this path), native `Error`, any other object (detail
rendering), defined primitives (`safeAnyToString`), `null`/`undefined`
(`null`). -/
def _errorToString (h : Heap) (fuel : Nat) (v : JsVal) (seen : Seen) :
    Except Unit (Option String) × Seen :=
  match fuel with
  | 0 => (Except.error (), seen)
  | f + 1 =>
    match v with
    | JsVal.ref a =>
      match (getObj h a).tag with
      | Tag.baseError d =>
        let (l, s') := _errorDetailToList h f d seen
        (Except.ok (some (String.intercalate "\n" l)), s')
      | Tag.collection _ _ =>
        match invokeToString h f v with
        | Except.error e => (Except.error e, seen)
        | Except.ok (JsVal.str s) => (Except.ok (some s), seen)
        | Except.ok _ => (Except.ok (some ""), seen)
      | Tag.nativeError =>
        let (s, s') := _nativeErrorToString h f a seen
        (Except.ok (some s), s')
      | _ =>
        let (l, s') := _errorDetailToList h f a seen
        (Except.ok (some (String.intercalate "\n" l)), s')
    | JsVal.undef => (Except.ok none, seen)
    | JsVal.null => (Except.ok none, seen)
    | prim => (Except.ok (safeAnyToString h f prim), seen)
termination_by structural fuel

end

/-- Source `errorDetailToList`: fresh visited set. -/
def errorDetailToList (h : Heap) (fuel : Nat) (a : Nat) : List String :=
  (_errorDetailToList h fuel a []).1

/-- Source `errorDetailToString`: fresh visited set, lines joined with `\n`. -/
def errorDetailToString (h : Heap) (fuel : Nat) (a : Nat) : String :=
  String.intercalate "\n" (_errorDetailToList h fuel a []).1

/-- Source `nativeErrorToString`: fresh visited set. -/
def nativeErrorToString (h : Heap) (fuel : Nat) (a : Nat) : String :=
  (_nativeErrorToString h fuel a []).1

/-- Source `errorToString`: `_errorToString(anyValue, new WeakSet()) ?? ''`.
There is no `try/catch` on this path, so an exception from the collection
branch propagates to the caller (`Except.error`). -/
def errorToString (h : Heap) (fuel : Nat) (v : JsVal) : Except Unit String :=
  match _errorToString h fuel v [] with
  | (Except.error e, _) => Except.error e
  | (Except.ok none, _) => Except.ok ""
  | (Except.ok (some s), _) => Except.ok s

/-!
## JSON rendering

Mirrors `_safeAnyToJson`, `_safeAnyToPrimitive`, `_copyObjectToTarget`,
`_tryExtractProperty`, `_errorDetailToJsonLike`, `_nativeErrorToJsonLike`,
`_errorToJsonLike` and `ErrorLikeCollection.toJSON` of the source.
-/

/-- The result code of the internal JSON writers: `[0, null]` (nothing
written, no value), `[1, null]` (at least one field written onto the
target), `[2, value]` (unrecognized, but a primitive value is available). -/
inductive JRes where
  | nothing
  | wrote
  | prim (p : JsonLike)

/-- `'toJSON' in anyValue`: an own override, or the prototype method of
`ErrorLikeProto`, `BaseError` and `ErrorLikeCollection`. -/
def hasToJson (h : Heap) (a : Nat) : Bool :=
  (getObj h a).toJson.isSome ||
    (match (getObj h a).tag with
     | Tag.errorLike => true
     | Tag.baseError _ => true
     | Tag.collection _ _ => true
     | _ => false)

/-- Source `_safeAnyToPrimitive` guard: `typeof v === 'boolean' ||
Number.isFinite(v) || (typeof v === 'string' && v.length > 0)`. -/
def keepAsPrimitive (v : JsVal) : Bool :=
  match v with
  | JsVal.bool _ => true
  | JsVal.num _ => true
  | JsVal.str s => decide (0 < s.length)
  | _ => false

/-- `Object.entries` loop of `_copyObjectToTarget` over heap-object fields:
raw values copied verbatim; a throwing getter stops the loop (caught by the
surrounding `try`), keeping earlier writes. -/
def copyFieldsGo (flds : List (String × Getter)) (t : JTarget) (ok : Bool) : JTarget × Bool :=
  match flds with
  | [] => (t, ok)
  | (k, Getter.val v) :: rest => copyFieldsGo rest (setKey t k (JsonLike.val v)) true
  | (_, Getter.throws) :: _ => (t, ok)

/-- `Object.entries` loop over an already-built mapping (cannot throw). -/
def copyEntriesGo (l : List (String × JsonLike)) (t : JTarget) (ok : Bool) : JTarget × Bool :=
  match l with
  | [] => (t, ok)
  | (k, v) :: rest => copyEntriesGo rest (setKey t k v) true

/-- `Object.entries` loop over an array value (index keys `"0"`, `"1"`, …). -/
def copyArrGo (items : List JsonLike) (i : Nat) (t : JTarget) (ok : Bool) : JTarget × Bool :=
  match items with
  | [] => (t, ok)
  | v :: rest => copyArrGo rest (i + 1) (setKey t (toString i) v) true

/-- Source `_copyObjectToTarget`: copy the own enumerable entries of `source`
onto `target` verbatim, returning whether at least one field was written;
the whole loop sits under a `try`, so the function is total. -/
def _copyObjectToTarget (h : Heap) (t : JTarget) (source : JsonLike) : JTarget × Bool :=
  match source with
  | JsonLike.obj l => copyEntriesGo l t false
  | JsonLike.arr items => copyArrGo items 0 t false
  | JsonLike.val (JsVal.ref a) => copyFieldsGo (getObj h a).fields t false
  | JsonLike.val _ => (t, false)

/-- Source `_safeAnyToPrimitive`: keep booleans, finite numbers and non-empty
strings as they are, otherwise fall back to `safeAnyToString`. Only called
on non-objects, except for the native-error fallback. -/
def _safeAnyToPrimitive (h : Heap) (fuel : Nat) (v : JsVal) : Option JsonLike :=
  if keepAsPrimitive v then some (JsonLike.val v)
  else
    match safeAnyToString h fuel v with
    | some s => some (JsonLike.val (JsVal.str s))
    | none => none

mutual

/-- A `v.toJSON()` method invocation: own override if present, else the
prototype method of the class tag (`ErrorLikeProto.toJSON` =
`errorDetailToJsonLike(this)` with a fresh visited set; `BaseError.toJSON()`
delegates to its `detail`; the collection builds `{pfx: [...]}`). Calling an
absent method throws. Entering the call consumes one unit of fuel. -/
def invokeToJson (h : Heap) (fuel : Nat) (v : JsVal) : Except Unit JsonLike :=
  match fuel with
  | 0 => Except.error ()
  | f + 1 =>
    match v with
    | JsVal.ref a =>
      let o := getObj h a
      match o.toJson with
      | some (JsonB.ret r) => Except.ok (JsonLike.val r)
      | some JsonB.throws => Except.error ()
      | none =>
        match o.tag with
        | Tag.errorLike =>
          Except.ok (JsonLike.obj (_errorDetailToJsonLike h f a [] []).1)
        | Tag.baseError d => invokeToJson h f (JsVal.ref d)
        | Tag.collection pfx elems =>
          match collectionToJson h f elems with
          | Except.error e => Except.error e
          | Except.ok items => Except.ok (JsonLike.obj [(pfx, JsonLike.arr items)])
        | _ => Except.error ()
    | _ => Except.error ()
termination_by structural fuel

/-- `ErrorLikeCollection.toJSON()` body: each element's own `toJSON()` result
collected into an array (no `try/catch` around the element calls). -/
def collectionToJson (h : Heap) (fuel : Nat) (elems : List Nat) : Except Unit (List JsonLike) :=
  match fuel with
  | 0 => Except.error ()
  | f + 1 =>
    match elems with
    | [] => Except.ok []
    | e :: rest =>
      match invokeToJson h f (JsVal.ref e) with
      | Except.error err => Except.error err
      | Except.ok j =>
        match collectionToJson h f rest with
        | Except.error err => Except.error err
        | Except.ok tail => Except.ok (j :: tail)
termination_by structural fuel

/-- Source `_safeAnyToJson`: under a `try`, call `toJSON()` when the object
has one, ignoring `undefined` and `''` results. A JavaScript `null` result
is reported as absent too, since every caller tests `value !== null`. -/
def _safeAnyToJson (h : Heap) (fuel : Nat) (v : JsVal) : Option JsonLike :=
  match fuel with
  | 0 => none
  | f + 1 =>
    match v with
    | JsVal.ref a =>
      if hasToJson h a then
        match invokeToJson h f v with
        | Except.error _ => none
        | Except.ok j =>
          match j with
          | JsonLike.val JsVal.undef => none
          | JsonLike.val JsVal.null => none
          | JsonLike.val (JsVal.str s) => if s = "" then none else some (JsonLike.val (JsVal.str s))
          | j => some j
      else none
    | _ => none
termination_by structural fuel

/-- Source `_tryExtractProperty`: under one `try`, read the property; for a
defined non-null value, consult the visited set (objects only), add the
object, build a fresh `temp` mapping through `_errorToJsonLike`, and write
`temp` (result 1) or the primitive payload (result 2) under `name`. The
`seen.add` persists even when the recursive call throws. -/
def _tryExtractProperty (h : Heap) (fuel : Nat) (t : JTarget) (a : Nat) (name : String)
    (seen : Seen) : JTarget × Seen × Bool :=
  match fuel with
  | 0 => (t, seen, false)
  | f + 1 =>
    match reflectGet h a name with
    | Except.error _ => (t, seen, false)
    | Except.ok raw =>
      if definedNonNull raw then
        let isObj := isObjRef raw
        let guardHit := match raw with
          | JsVal.ref r => seenHas seen r
          | _ => false
        if !isObj || !guardHit then
          let seen1 := match raw with
            | JsVal.ref r => seenAdd seen r
            | _ => seen
          match _errorToJsonLike h f raw [] seen1 with
          | (Except.error _, s') => (t, s', false)
          | (Except.ok (temp, JRes.wrote), s') => (setKey t name (JsonLike.obj temp), s', true)
          | (Except.ok (_, JRes.prim p), s') => (setKey t name p, s', true)
          | (Except.ok (_, JRes.nothing), s') => (t, s', false)
        else (t, seen, false)
      else (t, seen, false)
termination_by structural fuel

/-- The unknown-fields loop of `_errorDetailToJsonLike` (source lines
578-582): `_tryExtractProperty` per field, accumulating the ok flag. -/
def remainingJson (h : Heap) (fuel : Nat) (a : Nat) (names : List String) (t : JTarget)
    (seen : Seen) : JTarget × Seen × Bool :=
  match fuel with
  | 0 => (t, seen, false)
  | f + 1 =>
    match names with
    | [] => (t, seen, false)
    | name :: rest =>
      let (t1, seen1, ok1) := _tryExtractProperty h f t a name seen
      let (t2, seen2, ok2) := remainingJson h f a rest t1 seen1
      (t2, seen2, ok1 || ok2)
termination_by structural fuel

/-- Source `_errorDetailToJsonLike`: `code` (non-empty string or safe integer
only, kept with its native type), then `name`, `message`, `level` (strings
only), then the remaining fields via `_tryExtractProperty`, then `stack`
(string only), then `cause` via `_tryExtractProperty`. -/
def _errorDetailToJsonLike (h : Heap) (fuel : Nat) (a : Nat) (t : JTarget) (seen : Seen) :
    JTarget × Seen × Bool :=
  match fuel with
  | 0 => (t, seen, false)
  | f + 1 =>
    let keys := keysInit h a
    let (t1, ok1) :=
      if keys.contains "code" then
        match reflectGet h a "code" with
        | Except.error _ => (t, false)
        | Except.ok code =>
          if (match code with | JsVal.str s => decide (0 < s.length) | _ => false) || isSafeInt code then
            (setKey t "code" (JsonLike.val code), true)
          else (t, false)
      else (t, false)
    let (t2, ok2) := if keys.contains "name" then
        (match safeGetStringOf h f a "name" with
         | some v => (setKey t1 "name" (JsonLike.val (JsVal.str v)), true)
         | none => (t1, false)) else (t1, false)
    let (t3, ok3) := if keys.contains "message" then
        (match safeGetStringOf h f a "message" with
         | some v => (setKey t2 "message" (JsonLike.val (JsVal.str v)), true)
         | none => (t2, false)) else (t2, false)
    let (t4, ok4) := if keys.contains "level" then
        (match safeGetStringOf h f a "level" with
         | some v => (setKey t3 "level" (JsonLike.val (JsVal.str v)), true)
         | none => (t3, false)) else (t3, false)
    let keys1 := keys.filter (fun k =>
      !(k = "code" : Bool) && !(k = "name" : Bool) && !(k = "message" : Bool) && !(k = "level" : Bool))
    let hasStack := keys1.contains "stack"
    let hasCause := keys1.contains "cause"
    let keys2 := keys1.filter (fun k => !(k = "stack" : Bool) && !(k = "cause" : Bool))
    let (t5, seen1, ok5) := remainingJson h f a keys2 t4 seen
    let (t6, ok6) :=
      if hasStack then
        (match safeGetStringOf h f a "stack" with
         | some s => (setKey t5 "stack" (JsonLike.val (JsVal.str s)), true)
         | none => (t5, false))
      else (t5, false)
    let (t7, seen2, ok7) :=
      if hasCause then _tryExtractProperty h f t6 a "cause" seen1 else (t6, seen1, false)
    (t7, seen2, ok1 || ok2 || ok3 || ok4 || ok5 || ok6 || ok7)
termination_by structural fuel

/-- Source `_nativeErrorToJsonLike`: first `toJSON()`; when it produced an
object whose entries copy onto the target (at least one written), return
result 1 with no further extraction; otherwise extract `name`, `message`,
`stack`, `cause`; if still nothing was written, fall back to the `toJSON`
value or `_safeAnyToPrimitive` as result 2. -/
def _nativeErrorToJsonLike (h : Heap) (fuel : Nat) (a : Nat) (t : JTarget) (seen : Seen) :
    JTarget × Seen × JRes :=
  match fuel with
  | 0 => (t, seen, JRes.nothing)
  | f + 1 =>
    let value := _safeAnyToJson h f (JsVal.ref a)
    let (t0, copied) :=
      match value with
      | some j => if jsonIsObject j then _copyObjectToTarget h t j else (t, false)
      | none => (t, false)
    if copied then (t0, seen, JRes.wrote)
    else
      let (t1, ok1) := match safeGetStringOf h f a "name" with
        | some s => (setKey t0 "name" (JsonLike.val (JsVal.str s)), true)
        | none => (t0, false)
      let (t2, ok2) := match safeGetStringOf h f a "message" with
        | some s => (setKey t1 "message" (JsonLike.val (JsVal.str s)), true)
        | none => (t1, false)
      let (t3, ok3) := match safeGetStringOf h f a "stack" with
        | some s => (setKey t2 "stack" (JsonLike.val (JsVal.str s)), true)
        | none => (t2, false)
      let (t4, seen1, ok4) := _tryExtractProperty h f t3 a "cause" seen
      if ok1 || ok2 || ok3 || ok4 then (t4, seen1, JRes.wrote)
      else
        match value with
        | some j => (t4, seen1, JRes.prim j)
        | none =>
          match _safeAnyToPrimitive h f (JsVal.ref a) with
          | some p => (t4, seen1, JRes.prim p)
          | none => (t4, seen1, JRes.nothing)
termination_by structural fuel

/-- Source `_errorToJsonLike`: dispatch on the value's class — `BaseError`
(its `detail`), `ErrorLikeCollection` (its own `toJSON()` copied entry by
entry, with no `try/catch` on this path), native `Error`, any other object
(detail rendering), defined primitives (kept native or stringified),
`null`/`undefined` (nothing). -/
def _errorToJsonLike (h : Heap) (fuel : Nat) (v : JsVal) (t : JTarget) (seen : Seen) :
    Except Unit (JTarget × JRes) × Seen :=
  match fuel with
  | 0 => (Except.error (), seen)
  | f + 1 =>
    match v with
    | JsVal.ref a =>
      match (getObj h a).tag with
      | Tag.baseError d =>
        let (t', s', ok) := _errorDetailToJsonLike h f d t seen
        (Except.ok (t', if ok then JRes.wrote else JRes.nothing), s')
      | Tag.collection _ _ =>
        match invokeToJson h f v with
        | Except.error e => (Except.error e, seen)
        | Except.ok (JsonLike.obj entries) =>
          let (t', ok) := copyEntriesGo entries t false
          (Except.ok (t', if ok then JRes.wrote else JRes.nothing), seen)
        | Except.ok _ => (Except.ok (t, JRes.nothing), seen)
      | Tag.nativeError =>
        let (t', s', r) := _nativeErrorToJsonLike h f a t seen
        (Except.ok (t', r), s')
      | _ =>
        let (t', s', ok) := _errorDetailToJsonLike h f a t seen
        (Except.ok (t', if ok then JRes.wrote else JRes.nothing), s')
    | JsVal.undef => (Except.ok (t, JRes.nothing), seen)
    | JsVal.null => (Except.ok (t, JRes.nothing), seen)
    | prim =>
      let value := match _safeAnyToJson h f prim with
        | some j => some j
        | none => _safeAnyToPrimitive h f prim
      match value with
      | some j =>
        if jsonIsObject j then
          let (t', ok) := _copyObjectToTarget h t j
          (Except.ok (t', if ok then JRes.wrote else JRes.nothing), seen)
        else (Except.ok (t, JRes.prim j), seen)
      | none => (Except.ok (t, JRes.nothing), seen)
termination_by structural fuel

end

/-- Source `errorDetailToJsonLike`: fresh target and visited set (the result
code 2 cannot arise from `_errorDetailToJsonLike`). -/
def errorDetailToJsonLike (h : Heap) (fuel : Nat) (a : Nat) : JTarget :=
  (_errorDetailToJsonLike h fuel a [] []).1

/-- Source `nativeErrorToJsonLike`: fresh target; a result-2 payload lands
under `__value`. -/
def nativeErrorToJsonLike (h : Heap) (fuel : Nat) (a : Nat) : JTarget :=
  match _nativeErrorToJsonLike h fuel a [] [] with
  | (t, _, JRes.prim p) => setKey t "__value" p
  | (t, _, _) => t

/-- Source `errorToJsonLike`: fresh target and visited set; a result-2
payload lands under `__value`. There is no `try/catch` on this path, so an
exception from the collection branch propagates (`Except.error`). -/
def errorToJsonLike (h : Heap) (fuel : Nat) (v : JsVal) : Except Unit JTarget :=
  match _errorToJsonLike h fuel v [] [] with
  | (Except.error e, _) => Except.error e
  | (Except.ok (t, JRes.prim p), _) => Except.ok (setKey t "__value" p)
  | (Except.ok (t, _), _) => Except.ok t

/-!
## `ErrorLike` creation and the collection's coercing mutations

Mirrors `isErrorLike`, `createErrorLike`, `ensureErrorLike` and the
`push`/`unshift`/`splice` overrides of `ErrorLikeCollection`. These
operations allocate, so they transform the heap; a fresh allocation goes to
address `h.length`.
-/

/-- Source `isErrorLike`: the value is an object whose direct prototype is
exactly `ErrorLikeProto`. -/
def isErrorLike (h : Heap) (v : JsVal) : Bool :=
  match v with
  | JsVal.ref a => (getObj h a).tag == Tag.errorLike
  | _ => false

/-- `Object.assign(fresh, props)`: read the own enumerable properties in
order; the first throwing getter aborts the whole assignment (the fresh
object is unreachable then, so the abort is modelled as all-or-nothing). -/
def evalOwnFields (flds : List (String × Getter)) : Except Unit (List (String × Getter)) :=
  match flds with
  | [] => Except.ok []
  | (k, Getter.val v) :: rest =>
    match evalOwnFields rest with
    | Except.error e => Except.error e
    | Except.ok r => Except.ok ((k, Getter.val v) :: r)
  | (_, Getter.throws) :: _ => Except.error ()

/-- Source `createErrorLike` with `captureStack` unset (the `ensureErrorLike`
path never captures): wrap a non-null object's own enumerable fields, or the
fixed fallback detail `{message: 'IErrorLike was not created', level:
'error', cause: detail}`, in a fresh object whose prototype is
`ErrorLikeProto`. `none` in the result means the copy threw. -/
def createErrorLike (h : Heap) (v : JsVal) : Heap × Option Nat :=
  match v with
  | JsVal.ref a =>
    match evalOwnFields (getObj h a).fields with
    | Except.error _ => (h, none)
    | Except.ok flds => (h ++ [⟨Tag.errorLike, flds, [], none, none⟩], some h.length)
  | _ =>
    (h ++ [⟨Tag.errorLike,
      [("message", Getter.val (JsVal.str "IErrorLike was not created")),
       ("level", Getter.val (JsVal.str "error")),
       ("cause", Getter.val v)], [], none, none⟩], some h.length)

/-- Source `ensureErrorLike`: an `ErrorLike` is returned as is; a `BaseError`
yields its `detail`; anything else goes through `createErrorLike`. -/
def ensureErrorLike (h : Heap) (v : JsVal) : Heap × Option Nat :=
  match v with
  | JsVal.ref a =>
    if isErrorLike h (JsVal.ref a) then (h, some a)
    else
      match (getObj h a).tag with
      | Tag.baseError d => (h, some d)
      | _ => createErrorLike h (JsVal.ref a)
  | _ => createErrorLike h v

/-- The element addresses of an `ErrorLikeCollection`. -/
abbrev Elems := List Nat

/-- The `push(...items)` override: each item coerced through
`ensureErrorLike` then appended; a throw aborts the loop, keeping the items
already pushed. -/
def pushItems (h : Heap) (es : Elems) (items : List JsVal) : Heap × Elems :=
  match items with
  | [] => (h, es)
  | v :: rest =>
    match ensureErrorLike h v with
    | (h', some a) => pushItems h' (es ++ [a]) rest
    | (h', none) => (h', es)

/-- The `unshift(...items)` override: each item coerced then prepended in
turn. -/
def unshiftItems (h : Heap) (es : Elems) (items : List JsVal) : Heap × Elems :=
  match items with
  | [] => (h, es)
  | v :: rest =>
    match ensureErrorLike h v with
    | (h', some a) => unshiftItems h' (a :: es) rest
    | (h', none) => (h', es)

/-- The `items.map(ensureErrorLike)` step of `splice`: a throw happens before
the underlying splice runs, so insertion is all-or-nothing. -/
def ensureAll (h : Heap) (items : List JsVal) : Heap × Option (List Nat) :=
  match items with
  | [] => (h, some [])
  | v :: rest =>
    match ensureErrorLike h v with
    | (h', some a) =>
      match ensureAll h' rest with
      | (h'', some tl) => (h'', some (a :: tl))
      | (h'', none) => (h'', none)
    | (h', none) => (h', none)

/-- The `splice(start, deleteCount, ...items)` override: coerce the inserted
items, then replace the designated range (the removed elements are returned
in a fresh collection, which does not affect the heap objects). -/
def spliceItems (h : Heap) (es : Elems) (start delCount : Nat) (items : List JsVal) :
    Heap × Elems :=
  match ensureAll h items with
  | (h', some ins) => (h', es.take start ++ ins ++ es.drop (start + delCount))
  | (h', none) => (h', es)

/-- One mutation of an `ErrorLikeCollection` through its overriding API. -/
inductive CollOp where
  | push (items : List JsVal)
  | unshift (items : List JsVal)
  | splice (start delCount : Nat) (items : List JsVal)

def applyOp (st : Heap × Elems) (op : CollOp) : Heap × Elems :=
  match op with
  | CollOp.push items => pushItems st.1 st.2 items
  | CollOp.unshift items => unshiftItems st.1 st.2 items
  | CollOp.splice s d items => spliceItems st.1 st.2 s d items

def applyOps (st : Heap × Elems) (ops : List CollOp) : Heap × Elems :=
  ops.foldl applyOp st

/-- `new ErrorLikeCollection(pfx, iterable)`: the constructor pushes
`Array.from(iterable)` onto the empty collection. -/
def newCollection (h : Heap) (items : List JsVal) : Heap × Elems :=
  pushItems h [] items

/-- The `BaseError` constructor invariant: every `BaseError` instance's
`detail` is an `ErrorLike` (the constructor coerces it, source line 98). -/
def wfBase (h : Heap) : Prop :=
  ∀ a d, (getObj h a).tag = Tag.baseError d → (getObj h d).tag = Tag.errorLike

/-- Every element of the collection is an `ErrorLike`. -/
def ElemsOk (h : Heap) (es : Elems) : Prop :=
  ∀ a ∈ es, (getObj h a).tag = Tag.errorLike

/-!
## Heap-extension lemmas

Rendering never writes the heap; the factory only appends. Tags of existing
objects are stable under appends, and a non-`plain` tag certifies that the
address is in range (dangling addresses read as the `plain` default).
-/

theorem getObj_append (h hs : Heap) (a : Nat) (ha : a < h.length) :
    getObj (h ++ hs) a = getObj h a := by
  unfold getObj
  exact List.getD_append h hs Obj.default a ha

theorem getObj_default (h : Heap) (a : Nat) (ha : h.length ≤ a) :
    getObj h a = Obj.default := by
  unfold getObj
  exact List.getD_eq_default h Obj.default ha

theorem getObj_append_self (h : Heap) (o : Obj) : getObj (h ++ [o]) h.length = o := by
  unfold getObj
  rw [List.getD_append_right h [o] Obj.default h.length (le_refl h.length)]
  simp

theorem tag_lt (h : Heap) (a : Nat) (t : Tag) (ht : (getObj h a).tag = t)
    (hne : t ≠ Tag.plain) : a < h.length := by
  by_contra hc
  push_neg at hc
  rw [getObj_default h a hc] at ht
  exact hne (ht.symm.trans rfl)

theorem tag_stable (h : Heap) (o : Obj) (a : Nat) (t : Tag) (ht : (getObj h a).tag = t)
    (hne : t ≠ Tag.plain) : (getObj (h ++ [o]) a).tag = t := by
  rw [getObj_append h [o] a (tag_lt h a t ht hne)]
  exact ht

theorem wfBase_extend (h : Heap) (o : Obj) (ho : o.tag = Tag.errorLike) (hw : wfBase h) :
    wfBase (h ++ [o]) := by
  intro a d htag
  rcases Nat.lt_trichotomy a h.length with hlt | heq | hgt
  · rw [getObj_append h [o] a hlt] at htag
    exact tag_stable h o d Tag.errorLike (hw a d htag) (by decide)
  · subst heq
    rw [getObj_append_self] at htag
    rw [ho] at htag
    cases htag
  · have hge : (h ++ [o]).length ≤ a := by
      simp only [List.length_append, List.length_singleton]
      omega
    rw [getObj_default _ _ hge] at htag
    cases htag

theorem elemsOk_extend (h : Heap) (o : Obj) (es : Elems) (he : ElemsOk h es) :
    ElemsOk (h ++ [o]) es :=
  fun a ha => tag_stable h o a _ (he a ha) (by decide)

/-- `createErrorLike` either throws without touching the heap, or appends one
fresh `ErrorLike` object and returns its address. -/
theorem create_spec (h : Heap) (v : JsVal) :
    createErrorLike h v = (h, none) ∨
    ∃ o, o.tag = Tag.errorLike ∧ createErrorLike h v = (h ++ [o], some h.length) := by
  cases v with
  | ref a =>
    simp only [createErrorLike]
    cases evalOwnFields (getObj h a).fields with
    | error e => exact Or.inl rfl
    | ok flds => exact Or.inr ⟨_, rfl, rfl⟩
  | undef => exact Or.inr ⟨_, rfl, rfl⟩
  | null => exact Or.inr ⟨_, rfl, rfl⟩
  | bool b => exact Or.inr ⟨_, rfl, rfl⟩
  | num n => exact Or.inr ⟨_, rfl, rfl⟩
  | str s => exact Or.inr ⟨_, rfl, rfl⟩
  | sym d => exact Or.inr ⟨_, rfl, rfl⟩
  | fn s => exact Or.inr ⟨_, rfl, rfl⟩

/-- `ensureErrorLike` preserves the `BaseError` invariant, extends the heap
by at most one `ErrorLike`, and any returned address carries the
`ErrorLike` tag. -/
theorem ensure_spec (h : Heap) (v : JsVal) (hw : wfBase h) :
    wfBase (ensureErrorLike h v).1 ∧
    ((ensureErrorLike h v).1 = h ∨
      ∃ o, o.tag = Tag.errorLike ∧ (ensureErrorLike h v).1 = h ++ [o]) ∧
    (∀ a, (ensureErrorLike h v).2 = some a →
      (getObj (ensureErrorLike h v).1 a).tag = Tag.errorLike) := by
  have hcreate : ∀ w : JsVal,
      wfBase (createErrorLike h w).1 ∧
      ((createErrorLike h w).1 = h ∨
        ∃ o, o.tag = Tag.errorLike ∧ (createErrorLike h w).1 = h ++ [o]) ∧
      (∀ a, (createErrorLike h w).2 = some a →
        (getObj (createErrorLike h w).1 a).tag = Tag.errorLike) := by
    intro w
    rcases create_spec h w with hc | ⟨o, ho, hc⟩
    · rw [hc]
      exact ⟨hw, Or.inl rfl, fun a ha => by cases ha⟩
    · rw [hc]
      refine ⟨wfBase_extend h o ho hw, Or.inr ⟨o, ho, rfl⟩, ?_⟩
      intro a ha
      have : a = h.length := by cases ha; rfl
      subst this
      rw [getObj_append_self]
      exact ho
  cases v with
  | ref a =>
    simp only [ensureErrorLike]
    by_cases hel : isErrorLike h (JsVal.ref a) = true
    · rw [if_pos hel]
      refine ⟨hw, Or.inl rfl, ?_⟩
      intro b hb
      have : b = a := by cases hb; rfl
      subst this
      simpa [isErrorLike] using hel
    · rw [if_neg hel]
      cases htag : (getObj h a).tag with
      | baseError d =>
        refine ⟨hw, Or.inl rfl, ?_⟩
        intro b hb
        have : b = d := by cases hb; rfl
        subst this
        exact hw a _ htag
      | plain => exact hcreate (JsVal.ref a)
      | errorLike => exact hcreate (JsVal.ref a)
      | collection pfx elems => exact hcreate (JsVal.ref a)
      | nativeError => exact hcreate (JsVal.ref a)
  | undef => exact hcreate JsVal.undef
  | null => exact hcreate JsVal.null
  | bool b => exact hcreate (JsVal.bool b)
  | num n => exact hcreate (JsVal.num n)
  | str s => exact hcreate (JsVal.str s)
  | sym d => exact hcreate (JsVal.sym d)
  | fn s => exact hcreate (JsVal.fn s)

/-- Tags of objects that exist (non-default) are preserved from `h` to `h'`.
Holds for every heap step the factory performs, and composes. -/
def TagPreserved (h h' : Heap) : Prop :=
  ∀ a, (getObj h a).tag ≠ Tag.plain → (getObj h' a).tag = (getObj h a).tag

theorem tagPreserved_refl (h : Heap) : TagPreserved h h := fun _ _ => rfl

theorem tagPreserved_trans (h h' h'' : Heap) (p : TagPreserved h h') (q : TagPreserved h' h'') :
    TagPreserved h h'' := by
  intro a hne
  have hp := p a hne
  have hne' : (getObj h' a).tag ≠ Tag.plain := by rw [hp]; exact hne
  rw [q a hne', hp]

theorem elemsOk_mono (h h' : Heap) (es : Elems) (p : TagPreserved h h') (he : ElemsOk h es) :
    ElemsOk h' es := by
  intro a ha
  have hne : (getObj h a).tag ≠ Tag.plain := by rw [he a ha]; decide
  rw [p a hne]
  exact he a ha

theorem elemsOk_snoc (h : Heap) (es : Elems) (a : Nat) (he : ElemsOk h es)
    (ha : (getObj h a).tag = Tag.errorLike) : ElemsOk h (es ++ [a]) := by
  intro x hx
  rcases List.mem_append.mp hx with hx | hx
  · exact he x hx
  · have hxa := List.mem_singleton.mp hx
    subst hxa
    exact ha

theorem elemsOk_cons (h : Heap) (es : Elems) (a : Nat) (he : ElemsOk h es)
    (ha : (getObj h a).tag = Tag.errorLike) : ElemsOk h (a :: es) := by
  intro x hx
  rcases List.mem_cons.mp hx with hxa | hx
  · subst hxa; exact ha
  · exact he x hx

/-- `ensureErrorLike` as one heap step: the invariant survives, existing tags
survive, and a returned address is an `ErrorLike`. -/
theorem ensure_step (h : Heap) (v : JsVal) (h' : Heap) (r : Option Nat) (hw : wfBase h)
    (he : ensureErrorLike h v = (h', r)) :
    wfBase h' ∧ TagPreserved h h' ∧
    (∀ a, r = some a → (getObj h' a).tag = Tag.errorLike) := by
  have hs := ensure_spec h v hw
  rw [he] at hs
  refine ⟨hs.1, ?_, hs.2.2⟩
  rcases hs.2.1 with heq | ⟨o, ho, heq⟩
  · subst heq; exact tagPreserved_refl _
  · subst heq
    intro a hne
    exact tag_stable h o a _ rfl hne

theorem pushItems_ok (items : List JsVal) :
    ∀ (h : Heap) (es : Elems), wfBase h → ElemsOk h es →
      wfBase (pushItems h es items).1 ∧ TagPreserved h (pushItems h es items).1 ∧
      ElemsOk (pushItems h es items).1 (pushItems h es items).2 := by
  induction items with
  | nil =>
    intro h es hw he
    exact ⟨hw, tagPreserved_refl h, he⟩
  | cons v rest ih =>
    intro h es hw he
    rcases hv : ensureErrorLike h v with ⟨h1, r⟩
    have hs := ensure_step h v h1 r hw hv
    cases r with
    | none =>
      simp only [pushItems, hv]
      exact ⟨hs.1, hs.2.1, elemsOk_mono h h1 es hs.2.1 he⟩
    | some a =>
      simp only [pushItems, hv]
      have he1 : ElemsOk h1 (es ++ [a]) :=
        elemsOk_snoc h1 es a (elemsOk_mono h h1 es hs.2.1 he) (hs.2.2 a rfl)
      have hrec := ih h1 (es ++ [a]) hs.1 he1
      exact ⟨hrec.1, tagPreserved_trans h h1 _ hs.2.1 hrec.2.1, hrec.2.2⟩

theorem unshiftItems_ok (items : List JsVal) :
    ∀ (h : Heap) (es : Elems), wfBase h → ElemsOk h es →
      wfBase (unshiftItems h es items).1 ∧ TagPreserved h (unshiftItems h es items).1 ∧
      ElemsOk (unshiftItems h es items).1 (unshiftItems h es items).2 := by
  induction items with
  | nil =>
    intro h es hw he
    exact ⟨hw, tagPreserved_refl h, he⟩
  | cons v rest ih =>
    intro h es hw he
    rcases hv : ensureErrorLike h v with ⟨h1, r⟩
    have hs := ensure_step h v h1 r hw hv
    cases r with
    | none =>
      simp only [unshiftItems, hv]
      exact ⟨hs.1, hs.2.1, elemsOk_mono h h1 es hs.2.1 he⟩
    | some a =>
      simp only [unshiftItems, hv]
      have he1 : ElemsOk h1 (a :: es) :=
        elemsOk_cons h1 es a (elemsOk_mono h h1 es hs.2.1 he) (hs.2.2 a rfl)
      have hrec := ih h1 (a :: es) hs.1 he1
      exact ⟨hrec.1, tagPreserved_trans h h1 _ hs.2.1 hrec.2.1, hrec.2.2⟩

theorem ensureAll_ok (items : List JsVal) :
    ∀ (h : Heap), wfBase h →
      wfBase (ensureAll h items).1 ∧ TagPreserved h (ensureAll h items).1 ∧
      (∀ l, (ensureAll h items).2 = some l → ElemsOk (ensureAll h items).1 l) := by
  induction items with
  | nil =>
    intro h hw
    refine ⟨hw, tagPreserved_refl h, ?_⟩
    intro l hl
    cases hl
    intro a ha
    cases ha
  | cons v rest ih =>
    intro h hw
    rcases hv : ensureErrorLike h v with ⟨h1, r⟩
    have hs := ensure_step h v h1 r hw hv
    cases r with
    | none =>
      simp only [ensureAll, hv]
      exact ⟨hs.1, hs.2.1, fun l hl => by cases hl⟩
    | some a =>
      have ih2 := ih h1 hs.1
      rcases hrest : ensureAll h1 rest with ⟨h2, rr⟩
      rw [hrest] at ih2
      cases rr with
      | none =>
        simp only [ensureAll, hv, hrest]
        exact ⟨ih2.1, tagPreserved_trans h h1 h2 hs.2.1 ih2.2.1, fun l hl => by cases hl⟩
      | some tl =>
        simp only [ensureAll, hv, hrest]
        refine ⟨ih2.1, tagPreserved_trans h h1 h2 hs.2.1 ih2.2.1, ?_⟩
        intro l hl
        cases hl
        exact elemsOk_cons h2 tl a (ih2.2.2 tl rfl)
          (by rw [ih2.2.1 a (by rw [hs.2.2 a rfl]; decide)]; exact hs.2.2 a rfl)

theorem spliceItems_ok (h : Heap) (es : Elems) (start delCount : Nat) (items : List JsVal)
    (hw : wfBase h) (he : ElemsOk h es) :
    wfBase (spliceItems h es start delCount items).1 ∧
    TagPreserved h (spliceItems h es start delCount items).1 ∧
    ElemsOk (spliceItems h es start delCount items).1 (spliceItems h es start delCount items).2 := by
  have hs := ensureAll_ok items h hw
  rcases hv : ensureAll h items with ⟨h1, r⟩
  rw [hv] at hs
  cases r with
  | none =>
    simp only [spliceItems, hv]
    exact ⟨hs.1, hs.2.1, elemsOk_mono h h1 es hs.2.1 he⟩
  | some ins =>
    simp only [spliceItems, hv]
    refine ⟨hs.1, hs.2.1, ?_⟩
    have he1 : ElemsOk h1 es := elemsOk_mono h h1 es hs.2.1 he
    intro x hx
    rcases List.mem_append.mp hx with hx' | hx'
    · rcases List.mem_append.mp hx' with hx'' | hx''
      · exact he1 x (List.mem_of_mem_take hx'')
      · exact hs.2.2 ins rfl x hx''
    · exact he1 x (List.mem_of_mem_drop hx')

theorem applyOp_ok (st : Heap × Elems) (op : CollOp) (hw : wfBase st.1)
    (he : ElemsOk st.1 st.2) :
    wfBase (applyOp st op).1 ∧ ElemsOk (applyOp st op).1 (applyOp st op).2 := by
  cases op with
  | push items =>
    have hp := pushItems_ok items st.1 st.2 hw he
    exact ⟨hp.1, hp.2.2⟩
  | unshift items =>
    have hp := unshiftItems_ok items st.1 st.2 hw he
    exact ⟨hp.1, hp.2.2⟩
  | splice s d items =>
    have hp := spliceItems_ok st.1 st.2 s d items hw he
    exact ⟨hp.1, hp.2.2⟩

theorem applyOps_ok (ops : List CollOp) :
    ∀ (st : Heap × Elems), wfBase st.1 → ElemsOk st.1 st.2 →
      wfBase (applyOps st ops).1 ∧ ElemsOk (applyOps st ops).1 (applyOps st ops).2 := by
  induction ops with
  | nil => intro st hw he; exact ⟨hw, he⟩
  | cons op rest ih =>
    intro st hw he
    have h1 := applyOp_ok st op hw he
    exact ih (applyOp st op) h1.1 h1.2

/-!
## Shared helpers for the claim theorems
-/

theorem strLenPos (s : String) : 0 < s.length ↔ s ≠ "" := by
  rcases s with ⟨cs⟩
  cases cs with
  | nil => simp [String.length]
  | cons c rest =>
    simp [String.length]
    intro hcontr
    have hdata : (String.mk (c :: rest)).data = ("" : String).data := by rw [hcontr]
    simp at hdata

theorem intercalateNl_nil : String.intercalate "\n" [] = "" := rfl

theorem intercalateNl_single (a : String) : String.intercalate "\n" [a] = a := rfl

theorem intercalateNl_pair (a b : String) : String.intercalate "\n" [a, b] = a ++ "\n" ++ b := rfl

/-- Split a string into its `\n`-separated lines (kernel-computable, unlike
`String.splitOn`). -/
def splitNl (cs : List Char) (acc : List Char) : List String :=
  match cs with
  | [] => [String.mk acc.reverse]
  | c :: rest =>
    if c = '\n' then String.mk acc.reverse :: splitNl rest [] else splitNl rest (c :: acc)

def strLines (s : String) : List String := splitNl s.data []

theorem wfBase_nil : wfBase [] := by
  intro a d had
  simp [getObj, Obj.default] at had

/-!
## Claim C1
-/

/-- The heap for C1: an `ErrorLikeCollection` (address 1) whose single element
(address 0) is an `ErrorLike` with own throwing `toString`/`toJSON` methods —
the state produced by `new ErrorLikeCollection('errors', [{toString() {throw
0}, toJSON() {throw 0}}])`, since `createErrorLike` copies the own enumerable
methods onto the wrapper. -/
def hC1 : Heap :=
  [⟨Tag.errorLike, [], [], some StrB.throws, some JsonB.throws⟩,
   ⟨Tag.collection "errors" [0], [], [], none, none⟩]

/-- Claim C1 (code bug): the claim that the top-level render entry points
never propagate an exception is right about the intent (the source's own
jsdoc says `errorToString` "always returns a string") but wrong about the
code: `ErrorLikeCollection.toString()` and `.toJSON()` invoke the elements'
methods with no `try/catch` anywhere between the entry point and the element
call (source lines 184, 192, 428, 675), so a collection holding an element
with a throwing own `toString`/`toJSON` makes both entry points throw, at
every stack budget. -/
theorem C1_entry_points_can_throw :
    (∀ f, errorToString hC1 (f + 20) (JsVal.ref 1) = Except.error ()) ∧
    (∀ f, errorToJsonLike hC1 (f + 20) (JsVal.ref 1) = Except.error ()) :=
  ⟨fun _ => rfl, fun _ => rfl⟩

/-!
## Claim C2
-/

/-- The heap for C2: `A = {code: 'A', message: 'Detail A', cause: B}` at
address 0 and `B = {code: 'B', message: 'Detail B', cause: A}` at address 1. -/
def hC2 : Heap :=
  [⟨Tag.plain, [("code", Getter.val (JsVal.str "A")), ("message", Getter.val (JsVal.str "Detail A")),
    ("cause", Getter.val (JsVal.ref 1))], [], none, none⟩,
   ⟨Tag.plain, [("code", Getter.val (JsVal.str "B")), ("message", Getter.val (JsVal.str "Detail B")),
    ("cause", Getter.val (JsVal.ref 0))], [], none, none⟩]

/-- The rendering the code produces for `hC2`: A's fields appear twice. -/
def hC2out : String :=
  "code: A\nmessage: Detail A\ncause:\ncode: B\nmessage: Detail B\ncause:\ncode: A\nmessage: Detail A"

/-- Claim C2 is false as stated: rendering `A` in the `A.cause = B; B.cause =
A` cycle terminates and includes B's fields exactly once, but it DOES include
A's fields a second time — the visited set receives only cause targets,
never the root `A`, so `A` is re-rendered once (nested under B's `cause:`)
before the guard cuts the cycle: the line `code: A` occurs twice in the
output. -/
theorem C2_counterexample :
    errorToString hC2 20 (JsVal.ref 0) = Except.ok hC2out ∧
    (strLines hC2out).count "code: A" = 2 ∧
    (strLines hC2out).count "code: B" = 1 :=
  ⟨rfl, by decide, by decide⟩

/-- Claim C2 amended: for `A.cause = B; B.cause = A`, rendering `A`
terminates (the output is the same at every sufficient stack budget),
includes B's fields under `cause:` exactly once, and includes A's fields
exactly twice — at the top and once more under B's `cause:`, where the
recursion stops. -/
theorem C2_cycle_renders_root_twice (f : Nat) :
    errorToString hC2 (f + 12) (JsVal.ref 0) = Except.ok hC2out ∧
    (strLines hC2out).count "code: A" = 2 ∧
    (strLines hC2out).count "code: B" = 1 ∧
    (strLines hC2out).count "cause:" = 2 :=
  ⟨rfl, by decide, by decide, by decide⟩

/-!
## Claim C3
-/

/-- The heap for C3: a detail carrying all reserved fields plus `extra`, each
holding a string. -/
def hC3 (c m n l st cv ev : String) : Heap :=
  [⟨Tag.plain,
    [("code", Getter.val (JsVal.str c)), ("message", Getter.val (JsVal.str m)),
     ("name", Getter.val (JsVal.str n)), ("level", Getter.val (JsVal.str l)),
     ("stack", Getter.val (JsVal.str st)), ("cause", Getter.val (JsVal.str cv)),
     ("extra", Getter.val (JsVal.str ev))], [], none, none⟩]

/-- Claim C3 (confirmed): for a detail whose `code`, `message`, `name`,
`level`, `stack`, `cause` and `extra` fields are all present, readable and
stringify non-empty, the string rendering emits exactly the lines `name`,
`code`, `message`, `level`, then `extra`, then `stack:`, then `cause:`, in
that order. -/
theorem C3_field_order (f : Nat) (c m n l st cv ev : String)
    (hc : 0 < c.length) (hm : 0 < m.length) (hn : 0 < n.length) (hl : 0 < l.length)
    (hst : 0 < st.length) (hcv : 0 < cv.length) (hev : 0 < ev.length) :
    errorDetailToList (hC3 c m n l st cv ev) (f + 12) 0 =
      ["name: " ++ n, "code: " ++ c, "message: " ++ m, "level: " ++ l,
       "extra: " ++ ev, "stack:\n" ++ st, "cause:\n" ++ cv] ∧
    errorDetailToString (hC3 c m n l st cv ev) (f + 12) 0 =
      String.intercalate "\n" (errorDetailToList (hC3 c m n l st cv ev) (f + 12) 0) := by
  refine ⟨?_, rfl⟩
  have hc' : ¬ (c = "") := (strLenPos c).mp hc
  have hm' : ¬ (m = "") := (strLenPos m).mp hm
  have hn' : ¬ (n = "") := (strLenPos n).mp hn
  have hl' : ¬ (l = "") := (strLenPos l).mp hl
  have hst' : ¬ (st = "") := (strLenPos st).mp hst
  have hcv' : ¬ (cv = "") := (strLenPos cv).mp hcv
  simp [errorDetailToList, _errorDetailToList, hC3, keysInit, getObj, propIn, reflectGet,
    safeGetStringOf, safeAnyToString, invokeToString, primToString, remainingFields,
    definedNonNull, isEmptyStrVal, seenHas, seenAdd,
    hc, hm, hn, hl, hst, hcv, hev, hc', hm', hn', hl', hst', hcv']

theorem C3_field_order_witness :
    0 < ("C1" : String).length ∧
    errorDetailToList (hC3 "C1" "Oh no" "ValueError" "warning" "trace" "root" "extra value") 12 0 =
      ["name: ValueError", "code: C1", "message: Oh no", "level: warning",
       "extra: extra value", "stack:\ntrace", "cause:\nroot"] :=
  ⟨by decide,
   (C3_field_order 0 "C1" "Oh no" "ValueError" "warning" "trace" "root" "extra value"
     (by decide) (by decide) (by decide) (by decide) (by decide) (by decide) (by decide)).1⟩

/-!
## Claim C4
-/

/-- The heap for C4: a detail whose only own enumerable field is `code`. -/
def hC4 (v : JsVal) : Heap := [⟨Tag.plain, [("code", Getter.val v)], [], none, none⟩]

/-- Claim C4 (confirmed): in JSON rendering of a detail, the key `code` is
present in the output exactly when the readable `code` value is a non-empty
string or a safe integer; accepted codes are kept with their native types,
everything else (objects, booleans, symbols, `undefined`, `null`, out-of-range
integers) is silently dropped. The universal formatter on the plain object
agrees with `errorDetailToJsonLike`. -/
theorem C4_json_code_filter (f : Nat) (v : JsVal) :
    ((lookupKey (errorDetailToJsonLike (hC4 v) (f + 12) 0) "code").isSome = true ↔
      (∃ s, v = JsVal.str s ∧ s ≠ "") ∨
      (∃ n : Int, v = JsVal.num n ∧ n.natAbs ≤ 9007199254740991)) ∧
    (∀ s, v = JsVal.str s → s ≠ "" →
      lookupKey (errorDetailToJsonLike (hC4 v) (f + 12) 0) "code" =
        some (JsonLike.val (JsVal.str s))) ∧
    (∀ n : Int, v = JsVal.num n → n.natAbs ≤ 9007199254740991 →
      lookupKey (errorDetailToJsonLike (hC4 v) (f + 12) 0) "code" =
        some (JsonLike.val (JsVal.num n))) ∧
    errorToJsonLike (hC4 v) (f + 13) (JsVal.ref 0) =
      Except.ok (errorDetailToJsonLike (hC4 v) (f + 12) 0) := by
  refine ⟨?_, ?_, ?_, ?_⟩
  · cases v with
    | str s =>
      by_cases hs : s = ""
      · subst hs
        simp [errorDetailToJsonLike, _errorDetailToJsonLike, hC4, keysInit, getObj, propIn,
          reflectGet, isSafeInt, remainingJson, lookupKey, setKey]
      · have hp : 0 < s.length := (strLenPos s).mpr hs
        simp [errorDetailToJsonLike, _errorDetailToJsonLike, hC4, keysInit, getObj, propIn,
          reflectGet, isSafeInt, remainingJson, lookupKey, setKey, hp, hs]
    | num n =>
      by_cases hn : n.natAbs ≤ 9007199254740991
      · simp [errorDetailToJsonLike, _errorDetailToJsonLike, hC4, keysInit, getObj, propIn,
          reflectGet, isSafeInt, remainingJson, lookupKey, setKey, hn]
      · simp [errorDetailToJsonLike, _errorDetailToJsonLike, hC4, keysInit, getObj, propIn,
          reflectGet, isSafeInt, remainingJson, lookupKey, setKey, hn]
    | undef =>
      simp [errorDetailToJsonLike, _errorDetailToJsonLike, hC4, keysInit, getObj, propIn,
        reflectGet, isSafeInt, remainingJson, lookupKey, setKey]
    | null =>
      simp [errorDetailToJsonLike, _errorDetailToJsonLike, hC4, keysInit, getObj, propIn,
        reflectGet, isSafeInt, remainingJson, lookupKey, setKey]
    | bool b =>
      simp [errorDetailToJsonLike, _errorDetailToJsonLike, hC4, keysInit, getObj, propIn,
        reflectGet, isSafeInt, remainingJson, lookupKey, setKey]
    | sym d =>
      simp [errorDetailToJsonLike, _errorDetailToJsonLike, hC4, keysInit, getObj, propIn,
        reflectGet, isSafeInt, remainingJson, lookupKey, setKey]
    | fn src =>
      simp [errorDetailToJsonLike, _errorDetailToJsonLike, hC4, keysInit, getObj, propIn,
        reflectGet, isSafeInt, remainingJson, lookupKey, setKey]
    | ref a =>
      simp [errorDetailToJsonLike, _errorDetailToJsonLike, hC4, keysInit, getObj, propIn,
        reflectGet, isSafeInt, remainingJson, lookupKey, setKey]
  · intro s hv hs
    subst hv
    have hp : 0 < s.length := (strLenPos s).mpr hs
    simp [errorDetailToJsonLike, _errorDetailToJsonLike, hC4, keysInit, getObj, propIn,
      reflectGet, isSafeInt, remainingJson, lookupKey, setKey, hp]
  · intro n hv hn
    subst hv
    simp [errorDetailToJsonLike, _errorDetailToJsonLike, hC4, keysInit, getObj, propIn,
      reflectGet, isSafeInt, remainingJson, lookupKey, setKey, hn]
  · cases hok : (_errorDetailToJsonLike (hC4 v) (f + 12) 0 [] []).2.2 with
    | false =>
      simp only [hC4] at hok
      simp [errorToJsonLike, _errorToJsonLike, errorDetailToJsonLike, hC4, getObj, hok]
    | true =>
      simp only [hC4] at hok
      simp [errorToJsonLike, _errorToJsonLike, errorDetailToJsonLike, hC4, getObj, hok]

theorem C4_json_code_filter_witness :
    lookupKey (errorDetailToJsonLike (hC4 (JsVal.str "C1")) 12 0) "code" =
      some (JsonLike.val (JsVal.str "C1")) ∧
    lookupKey (errorDetailToJsonLike (hC4 (JsVal.num 42)) 12 0) "code" =
      some (JsonLike.val (JsVal.num 42)) ∧
    (lookupKey (errorDetailToJsonLike (hC4 (JsVal.ref 7)) 12 0) "code").isSome = false :=
  ⟨(C4_json_code_filter 0 (JsVal.str "C1")).2.1 "C1" rfl (by decide),
   (C4_json_code_filter 0 (JsVal.num 42)).2.2.1 42 rfl (by decide),
   by
    rcases (C4_json_code_filter 0 (JsVal.ref 7)).1 with hiff
    cases hv : (lookupKey (errorDetailToJsonLike (hC4 (JsVal.ref 7)) 12 0) "code").isSome
    · rfl
    · rcases hiff.mp hv with ⟨s, hs, _⟩ | ⟨n, hn, _⟩
      · cases hs
      · cases hn⟩

/-!
## Claim C5
-/

/-- Claim C5 is false as stated: the empty string is a defined, non-null
top-level value that cannot be interpreted as a field-bearing object, yet
`errorToJsonLike("")` returns the empty mapping, not `{__value: ""}` — the
escape path drops values whose primitive conversion yields nothing. -/
theorem C5_counterexample :
    errorToJsonLike [] 20 (JsVal.str "") = Except.ok [] ∧
    (Except.ok ([] : JTarget) : Except Unit JTarget) ≠
      Except.ok [("__value", JsonLike.val (JsVal.str ""))] :=
  ⟨rfl, by simp⟩

/-- Claim C5 amended: `errorToJsonLike` always returns a mapping;
`undefined`/`null` give the empty mapping; a defined non-null uninterpretable
value gives the single escape key `__value` holding the value itself when it
is a boolean, a (finite) number or a non-empty string, and its string
conversion otherwise (e.g. a symbol) — except that a value whose conversion
yields nothing, such as the empty string, produces the empty mapping with no
escape key. -/
theorem C5_top_level_json_shape (f : Nat) (n : Int) (b : Bool) (s : String) (d : String) :
    errorToJsonLike [] (f + 4) JsVal.undef = Except.ok [] ∧
    errorToJsonLike [] (f + 4) JsVal.null = Except.ok [] ∧
    errorToJsonLike [] (f + 4) (JsVal.num n) =
      Except.ok [("__value", JsonLike.val (JsVal.num n))] ∧
    errorToJsonLike [] (f + 4) (JsVal.bool b) =
      Except.ok [("__value", JsonLike.val (JsVal.bool b))] ∧
    errorToJsonLike [] (f + 4) (JsVal.str s) =
      Except.ok (if s = "" then [] else [("__value", JsonLike.val (JsVal.str s))]) ∧
    errorToJsonLike [] (f + 4) (JsVal.sym d) =
      Except.ok [("__value", JsonLike.val (JsVal.str ("Symbol(" ++ d ++ ")")))] := by
  refine ⟨rfl, rfl, rfl, rfl, ?_, ?_⟩
  · by_cases hs : s = ""
    · subst hs
      simp [errorToJsonLike, _errorToJsonLike, _safeAnyToJson, _safeAnyToPrimitive,
        keepAsPrimitive, safeAnyToString, invokeToString, primToString, jsonIsObject, setKey]
    · have hp : 0 < s.length := (strLenPos s).mpr hs
      simp [errorToJsonLike, _errorToJsonLike, _safeAnyToJson, _safeAnyToPrimitive,
        keepAsPrimitive, safeAnyToString, invokeToString, primToString, jsonIsObject, setKey,
        hp, hs]
  · have h7 : 0 < ("Symbol(" : String).length := by decide
    simp [errorToJsonLike, _errorToJsonLike, _safeAnyToJson, _safeAnyToPrimitive,
      keepAsPrimitive, safeAnyToString, invokeToString, primToString, jsonIsObject, setKey,
      String.length_append, h7]

/-!
## Claim C6
-/

/-- The heap for C6: `name` is the only own enumerable field; `stack` and
`cause` exist on the object without being own enumerable (inherited or
non-enumerable own), both holding readable non-empty strings. -/
def hC6 : Heap :=
  [⟨Tag.plain, [("name", Getter.val (JsVal.str "N"))],
    [("cause", Getter.val (JsVal.str "C")), ("stack", Getter.val (JsVal.str "S"))], none, none⟩]

/-- Claim C6 is false as stated: only `stack` gets the existence-based
(`'stack' in detail`) treatment (source lines 286-288); there is no analogous
line for `cause`, which is honoured only when own enumerable. Here `cause`
exists on the object (`propIn` = true) and is readable and non-empty, yet the
rendering emits the `stack:` block and no `cause:` block at all. -/
theorem C6_counterexample :
    propIn hC6 0 "cause" = true ∧
    reflectGet hC6 0 "cause" = Except.ok (JsVal.str "C") ∧
    errorToString hC6 20 (JsVal.ref 0) = Except.ok "name: N\nstack:\nS" ∧
    (strLines "name: N\nstack:\nS").count "cause:" = 0 :=
  ⟨rfl, rfl, rfl, by decide⟩

/-- The heap family for the amended C6, with variable field values. -/
def hC6v (n s c : String) : Heap :=
  [⟨Tag.plain, [("name", Getter.val (JsVal.str n))],
    [("cause", Getter.val (JsVal.str c)), ("stack", Getter.val (JsVal.str s))], none, none⟩]

/-- Claim C6 amended: in string rendering, `stack`'s mere existence on the
object counts as presence and it is emitted in its reserved position, but
`cause` is treated as present only when own enumerable — a `cause` that
merely exists on the object is neither rendered nor part of the remaining
bucket. -/
theorem C6_stack_in_cause_own (f : Nat) (n s c : String)
    (hn : 0 < n.length) (hs : 0 < s.length) :
    errorToString (hC6v n s c) (f + 12) (JsVal.ref 0) =
      Except.ok ("name: " ++ n ++ "\n" ++ ("stack:\n" ++ s)) := by
  simp [errorToString, _errorToString, _errorDetailToList, hC6v, keysInit, getObj, propIn,
    reflectGet, safeGetStringOf, safeAnyToString, invokeToString, primToString, remainingFields,
    definedNonNull, isEmptyStrVal, seenHas, seenAdd, hn, hs,
    (strLenPos n).mp hn, (strLenPos s).mp hs, intercalateNl_pair]

theorem C6_stack_in_cause_own_witness :
    0 < ("N" : String).length ∧
    errorToString (hC6v "N" "S" "C") 12 (JsVal.ref 0) =
      Except.ok ("name: " ++ "N" ++ "\n" ++ ("stack:\n" ++ "S")) :=
  ⟨by decide, C6_stack_in_cause_own 0 "N" "S" "C" (by decide) (by decide)⟩

/-!
## Claim C7
-/

/-- The heap for C7: a detail `{x: O}` whose unknown field holds the plain
object `O = {name: 'N'}`. -/
def hC7 : Heap :=
  [⟨Tag.plain, [("x", Getter.val (JsVal.ref 1))], [], none, none⟩,
   ⟨Tag.plain, [("name", Getter.val (JsVal.str "N"))], [], none, none⟩]

/-- Claim C7 is false as stated: in string rendering the remaining-field
value is NOT computed by recursively dispatching with the cycle guard —
recursive dispatch on `O` yields `"name: N"`, but the emitted line is
`x: [object Object]`, the result of `O`'s own `toString()` conversion
(source line 334 calls `safeAnyToString`, not `_errorToString`). -/
theorem C7_counterexample :
    errorToString hC7 20 (JsVal.ref 0) = Except.ok "x: [object Object]" ∧
    errorToString hC7 20 (JsVal.ref 1) = Except.ok "name: N" ∧
    ("x: [object Object]" : String) ≠ "x: " ++ "name: N" :=
  ⟨rfl, rfl, by decide⟩

/-- A detail holding the same object under two unknown fields: both lines are
emitted, so the visited set (which receives the object at the first field
already) is not consulted when stringifying remaining fields. -/
def hC7b : Heap :=
  [⟨Tag.plain, [("x", Getter.val (JsVal.ref 1)), ("y", Getter.val (JsVal.ref 1))], [], none, none⟩,
   ⟨Tag.plain, [("name", Getter.val (JsVal.str "N"))], [], none, none⟩]

/-- Claim C7 amended: in string rendering, a remaining field holding a
non-null object is stringified by the object's own `toString()` conversion
(the cycle guard is not consulted, and the object is added to the visited set
unconditionally — a second field holding the already-visited object still
renders); a plain object renders as `[object Object]` regardless of its
fields, and when the conversion throws the field is omitted entirely rather
than emitted as empty. -/
theorem C7_remaining_object_fields_stringified (f : Nat) (flds hid : List (String × Getter)) :
    errorToString [⟨Tag.plain, [("x", Getter.val (JsVal.ref 1))], [], none, none⟩,
                   ⟨Tag.plain, flds, hid, none, none⟩] (f + 12) (JsVal.ref 0) =
      Except.ok "x: [object Object]" ∧
    errorToString [⟨Tag.plain, [("x", Getter.val (JsVal.ref 1))], [], none, none⟩,
                   ⟨Tag.plain, flds, hid, some StrB.throws, none⟩] (f + 12) (JsVal.ref 0) =
      Except.ok "" ∧
    errorToString hC7b 20 (JsVal.ref 0) =
      Except.ok "x: [object Object]\ny: [object Object]" := by
  refine ⟨?_, ?_, rfl⟩
  · simp [errorToString, _errorToString, _errorDetailToList, keysInit, getObj, propIn,
      reflectGet, safeGetStringOf, safeAnyToString, invokeToString, primToString, remainingFields,
      definedNonNull, isEmptyStrVal, seenHas, seenAdd, String.length,
      intercalateNl_single, intercalateNl_nil]
  · simp [errorToString, _errorToString, _errorDetailToList, keysInit, getObj, propIn,
      reflectGet, safeGetStringOf, safeAnyToString, invokeToString, primToString, remainingFields,
      definedNonNull, isEmptyStrVal, seenHas, seenAdd,
      intercalateNl_single, intercalateNl_nil]

/-!
## Claim C8
-/

/-- The heap for C8: a native error with readable `name`/`message` whose own
`toJSON()` returns the empty plain object at address 1. -/
def hC8 : Heap :=
  [⟨Tag.nativeError,
    [("name", Getter.val (JsVal.str "Error")), ("message", Getter.val (JsVal.str "boom"))],
    [], none, some (JsonB.ret (JsVal.ref 1))⟩,
   ⟨Tag.plain, [], [], none, none⟩]

/-- Claim C8 is false as stated: when the native error's `toJSON()` returns
an object with no copyable own enumerable entries (here the empty object),
`_copyObjectToTarget` reports nothing written and the code falls through to
field-by-field extraction of `name`, `message`, `stack`, `cause` — the claim
predicts the verbatim copy `{}` with no extraction. -/
theorem C8_counterexample :
    nativeErrorToJsonLike hC8 20 0 =
      [("name", JsonLike.val (JsVal.str "Error")), ("message", JsonLike.val (JsVal.str "boom"))] ∧
    errorToJsonLike hC8 20 (JsVal.ref 0) =
      Except.ok [("name", JsonLike.val (JsVal.str "Error")),
                 ("message", JsonLike.val (JsVal.str "boom"))] ∧
    nativeErrorToJsonLike hC8 20 0 ≠ [] := by
  have h1 : nativeErrorToJsonLike hC8 20 0 =
      [("name", JsonLike.val (JsVal.str "Error")), ("message", JsonLike.val (JsVal.str "boom"))] :=
    rfl
  exact ⟨h1, rfl, by rw [h1]; simp⟩

/-- `_copyObjectToTarget`'s loop on a list of plain data fields with distinct
keys, none already present on the target: every entry is appended verbatim,
and the ok flag reports whether anything was written. -/
theorem copyFieldsGo_vals (L : List (String × JsVal)) :
    ∀ (t : JTarget), (L.map Prod.fst).Nodup →
      (∀ k ∈ L.map Prod.fst, t.any (fun q => q.1 = k) = false) →
      ∀ ok, copyFieldsGo (L.map (fun p => (p.1, Getter.val p.2))) t ok =
        (t ++ L.map (fun p => (p.1, JsonLike.val p.2)), ok || !L.isEmpty) := by
  induction L with
  | nil => intro t _ _ ok; simp [copyFieldsGo]
  | cons p rest ih =>
    rcases p with ⟨k, v⟩
    intro t hnd hnin ok
    have hnotin : t.any (fun q => q.1 = k) = false := hnin k (by simp)
    have hset : setKey t k (JsonLike.val v) = t ++ [(k, JsonLike.val v)] := by
      simp [setKey, hnotin]
    have hnd' : (rest.map Prod.fst).Nodup := (List.nodup_cons.mp hnd).2
    have hknotmem : k ∉ rest.map Prod.fst := (List.nodup_cons.mp hnd).1
    have hnin' : ∀ k' ∈ rest.map Prod.fst,
        (t ++ [(k, JsonLike.val v)]).any (fun q => q.1 = k') = false := by
      intro k' hk'
      have h1 := hnin k' (by simp [hk'])
      have hkk : ¬ (k = k') := fun he => hknotmem (he ▸ hk')
      simp [List.any_append, h1, hkk]
    have hrec := ih (t ++ [(k, JsonLike.val v)]) hnd' hnin' true
    simp only [List.map_cons, copyFieldsGo, hset, hrec]
    simp

/-- The heap family for the amended C8: the native error's `toJSON()` returns
the object at address 1, whose own enumerable fields are the data entries
`L`. -/
def hC8v (L : List (String × JsVal)) (nm ms : String) : Heap :=
  [⟨Tag.nativeError,
    [("name", Getter.val (JsVal.str nm)), ("message", Getter.val (JsVal.str ms))],
    [], none, some (JsonB.ret (JsVal.ref 1))⟩,
   ⟨Tag.plain, L.map (fun p => (p.1, Getter.val p.2)), [], none, none⟩]

/-- Claim C8 amended: when the native error's `toJSON()` returns an object at
least one of whose own enumerable entries copies onto the target, the result
is exactly those entries copied verbatim (native values, insertion order) and
no field-by-field extraction of `name`, `message`, `stack` or `cause`
happens; with no copyable entry the code falls back to extraction. -/
theorem C8_toJson_object_copied (f : Nat) (L : List (String × JsVal)) (nm ms : String)
    (hL : L ≠ []) (hnd : (L.map Prod.fst).Nodup) :
    nativeErrorToJsonLike (hC8v L nm ms) (f + 8) 0 =
      L.map (fun p => (p.1, JsonLike.val p.2)) ∧
    errorToJsonLike (hC8v L nm ms) (f + 9) (JsVal.ref 0) =
      Except.ok (L.map (fun p => (p.1, JsonLike.val p.2))) := by
  have hne : L.isEmpty = false := by
    cases L with
    | nil => exact absurd rfl hL
    | cons p r => rfl
  have hcopy := copyFieldsGo_vals L [] hnd (by intro k hk; rfl) false
  rw [hne] at hcopy
  constructor
  · simp [nativeErrorToJsonLike, _nativeErrorToJsonLike, _safeAnyToJson, invokeToJson,
      hasToJson, hC8v, getObj, jsonIsObject, _copyObjectToTarget, hcopy]
  · simp [errorToJsonLike, _errorToJsonLike, nativeErrorToJsonLike, _nativeErrorToJsonLike,
      _safeAnyToJson, invokeToJson, hasToJson, hC8v, getObj, jsonIsObject,
      _copyObjectToTarget, hcopy]

theorem C8_toJson_object_copied_witness :
    ([(("a" : String), JsVal.num 1)] ≠ []) ∧
    nativeErrorToJsonLike (hC8v [("a", JsVal.num 1)] "Error" "m") 8 0 =
      [("a", JsonLike.val (JsVal.num 1))] :=
  ⟨by simp,
   (C8_toJson_object_copied 0 [("a", JsVal.num 1)] "Error" "m" (by simp) (by simp)).1⟩

/-!
## Claim C9
-/

/-- Claim C9 (confirmed): for every `ErrorLikeCollection`, after construction
from any iterable and after any sequence of `push`, `unshift` and `splice`
calls with arbitrary raw values, every element of the collection satisfies
`isErrorLike` — each insertion coerces through `ensureErrorLike`. The
hypothesis is the `BaseError` constructor invariant (every `BaseError`'s
`detail` is an `ErrorLike`). -/
theorem C9_collection_homogeneous (h : Heap) (init : List JsVal) (ops : List CollOp)
    (hw : wfBase h) :
    ∀ a ∈ (applyOps (newCollection h init) ops).2,
      isErrorLike (applyOps (newCollection h init) ops).1 (JsVal.ref a) = true := by
  have h0 := pushItems_ok init h [] hw (fun a ha => absurd ha (List.not_mem_nil a))
  have h1 := applyOps_ok ops (newCollection h init) h0.1 h0.2.2
  intro a ha
  simp [isErrorLike, h1.2 a ha]

theorem C9_collection_homogeneous_witness :
    wfBase [] ∧
    ∀ a ∈ (applyOps (newCollection [] [JsVal.num 1, JsVal.str "boom"])
        [CollOp.push [JsVal.undef], CollOp.unshift [JsVal.bool true],
         CollOp.splice 1 1 [JsVal.str "x"]]).2,
      isErrorLike (applyOps (newCollection [] [JsVal.num 1, JsVal.str "boom"])
        [CollOp.push [JsVal.undef], CollOp.unshift [JsVal.bool true],
         CollOp.splice 1 1 [JsVal.str "x"]]).1 (JsVal.ref a) = true :=
  ⟨wfBase_nil,
   C9_collection_homogeneous [] [JsVal.num 1, JsVal.str "boom"]
     [CollOp.push [JsVal.undef], CollOp.unshift [JsVal.bool true],
      CollOp.splice 1 1 [JsVal.str "x"]] wfBase_nil⟩

/-!
## Claim C10
-/

/-- Claim C10 (confirmed): `ensureErrorLike` always returns a value
satisfying `isErrorLike` (an object whose direct prototype is exactly
`ErrorLikeProto`), and it is idempotent — applied to its own result it
returns that very object with the heap unchanged. The hypothesis is the
`BaseError` constructor invariant, which backs the `.detail` unwrap branch. -/
theorem C10_ensureErrorLike_idempotent (h : Heap) (v : JsVal) (h' : Heap) (a : Nat)
    (hw : wfBase h) (he : ensureErrorLike h v = (h', some a)) :
    isErrorLike h' (JsVal.ref a) = true ∧
    ensureErrorLike h' (JsVal.ref a) = (h', some a) := by
  have hs := ensure_step h v h' (some a) hw he
  have htag := hs.2.2 a rfl
  have hel : isErrorLike h' (JsVal.ref a) = true := by simp [isErrorLike, htag]
  refine ⟨hel, ?_⟩
  simp [ensureErrorLike, hel]

/-- The heap after `ensureErrorLike` wraps the bare number `5`: the fixed
fallback detail. -/
def fbHeap : Heap :=
  [⟨Tag.errorLike,
    [("message", Getter.val (JsVal.str "IErrorLike was not created")),
     ("level", Getter.val (JsVal.str "error")),
     ("cause", Getter.val (JsVal.num 5))], [], none, none⟩]

theorem C10_ensureErrorLike_idempotent_witness :
    wfBase [] ∧
    ensureErrorLike [] (JsVal.num 5) = (fbHeap, some 0) ∧
    isErrorLike fbHeap (JsVal.ref 0) = true ∧
    ensureErrorLike fbHeap (JsVal.ref 0) = (fbHeap, some 0) :=
  ⟨wfBase_nil, rfl,
   (C10_ensureErrorLike_idempotent [] (JsVal.num 5) fbHeap 0 wfBase_nil rfl).1,
   (C10_ensureErrorLike_idempotent [] (JsVal.num 5) fbHeap 0 wfBase_nil rfl).2⟩
